import Mathlib

/-!
Verification development for the i2pptt web frontend.

Shallow embedding of:
* `parseMarkdownStructure` (Step2Analyze.jsx): the markdown outline parser,
* `handleUpload` / confirm gating (Step1Upload component),
* `handleStepChange` (wizard step/job state machine).

Strings are handled as `List Char` (`Chars`), mirroring the JavaScript
operations `trim`, `startsWith`, `substring`/`split` on the source lines.
-/

namespace I2pptt

abbrev Chars := List Char

/-- JS `String.prototype.trim`: drop whitespace at both ends. -/
def jsTrim (l : Chars) : Chars :=
  ((l.dropWhile Char.isWhitespace).reverse.dropWhile Char.isWhitespace).reverse

/-- JS `String.prototype.startsWith pre` on a char-list representation. -/
def charsStartsWith (pre l : Chars) : Bool :=
  pre.isPrefixOf l

/-- JS `content.split('\n')`. -/
def toLines (content : String) : List Chars :=
  content.data.splitOn '\n'

theorem charsStartsWith_iff (p t : Chars) :
    charsStartsWith p t = true ↔ ∃ u, t = p ++ u := by
  induction p generalizing t with
  | nil =>
    simp [charsStartsWith, List.isPrefixOf]
  | cons c cs ih =>
    cases t with
    | nil =>
      simp [charsStartsWith, List.isPrefixOf]
    | cons d ds =>
      simp only [charsStartsWith, List.isPrefixOf, Bool.and_eq_true, beq_iff_eq] at *
      constructor
      · rintro ⟨rfl, h⟩
        obtain ⟨u, rfl⟩ := (ih ds).1 h
        exact ⟨u, rfl⟩
      · rintro ⟨u, hu⟩
        cases hu
        exact ⟨rfl, (ih (cs ++ u)).2 ⟨u, rfl⟩⟩

/-- An image record as built by `parseMarkdownStructure`; every field a
string, empty when absent. -/
structure ImageRecord where
  path : String
  filename : String
  title : String
  size : String
  orientation : String
deriving Repr, DecidableEq

/-- A group object as pushed by the parser.  The three shapes mirror the
three JS object literals: level 1 `{name, level:1, subgroups, images}`,
level 2 `{name, level:2, subsubgroups, images}`, level 3
`{name, level:3, images}`. -/
inductive Group where
  | g1 (name : String) (subgroups : List Group) (images : List ImageRecord)
  | g2 (name : String) (subsubgroups : List Group) (images : List ImageRecord)
  | g3 (name : String) (images : List ImageRecord)
deriving Repr

/-- The parser result `structure = { groups, images }`. -/
structure MdStructure where
  groups : List Group
  images : List ImageRecord
deriving Repr

/-- The currently open level-3 group (`currentSubSubGroup`). -/
structure Open3 where
  name : String
  images : List ImageRecord
deriving Repr

/-- The currently open level-2 group (`currentSubGroup`), together with a
possibly open level-3 child living in its `subsubgroups` array. -/
structure Open2 where
  name : String
  subsub : List Group
  images : List ImageRecord
  open3 : Option Open3
deriving Repr

/-- The open tail of an open level-1 group: either nothing open below it,
an open level-2 child (its last `subgroups` entry), or an open level-3
child pushed directly into its `subgroups` (the JS case `currentSubGroup
= null`, `currentGroup != null`). -/
inductive Tail1 where
  | closedT
  | sub (o : Open2)
  | subsub (o : Open3)
deriving Repr

/-- The currently open level-1 group (`currentGroup`). -/
structure Open1 where
  name : String
  subs : List Group
  images : List ImageRecord
  tail : Tail1
deriving Repr

/-- The open tail of the root `structure.groups` array: the chain of
currently open pointers.  `t2`/`t3` are the JS situations where a level-2
or level-3 group was pushed directly at root because no ancestor was
open. -/
inductive RootTail where
  | closedT
  | t1 (o : Open1)
  | t2 (o : Open2)
  | t3 (o : Open3)
deriving Repr

/-- Scan state: closed root entries, root image list, and the open
chain.  The JS code mutates the tree through the `current*` pointers;
here the open chain is kept apart and flushed into its parent when it
closes, preserving push order. -/
structure PState where
  doneRoot : List Group
  rootImages : List ImageRecord
  tail : RootTail
deriving Repr

def close3 (o : Open3) : Group := .g3 o.name o.images

def closeOpt3 (o : Option Open3) : List Group :=
  match o with
  | some o3 => [close3 o3]
  | none => []

def close2 (o : Open2) : Group := .g2 o.name (o.subsub ++ closeOpt3 o.open3) o.images

def closeTail1 : Tail1 → List Group
  | .closedT => []
  | .sub o2 => [close2 o2]
  | .subsub o3 => [close3 o3]

def close1 (o : Open1) : Group := .g1 o.name (o.subs ++ closeTail1 o.tail) o.images

def closeRootTail : RootTail → List Group
  | .closedT => []
  | .t1 o1 => [close1 o1]
  | .t2 o2 => [close2 o2]
  | .t3 o3 => [close3 o3]

/-- Value of a `key: value` field line: the JS regex `/key:\s*(.+)/`
followed by `.trim()`, applied to a trimmed line known to start with the
key; equal to trimming everything after the key (`klen` chars). -/
def fieldVal (klen : Nat) (t : Chars) : String :=
  ⟨jsTrim (t.drop klen)⟩

/-- The metadata lookahead loop body run over the following lines, with
`fuel` counting the remaining window (`i < lineIndex + 10` gives 9). -/
def scanMeta : List Chars → Nat → ImageRecord → ImageRecord
  | _, 0, img => img
  | [], _ + 1, img => img
  | l :: ls, fuel + 1, img =>
    let t := jsTrim l
    if charsStartsWith ("filename:".data) t then
      scanMeta ls fuel { img with filename := fieldVal 9 t }
    else if charsStartsWith ("title:".data) t then
      scanMeta ls fuel { img with title := fieldVal 6 t }
    else if charsStartsWith ("size:".data) t then
      scanMeta ls fuel { img with size := fieldVal 5 t }
    else if charsStartsWith ("orientation:".data) t then
      scanMeta ls fuel { img with orientation := fieldVal 12 t }
    else if charsStartsWith ['-'] t || charsStartsWith ['#'] t then
      img
    else
      scanMeta ls fuel img

/-- Build the image record for a trimmed `- path:` line, scanning the
following lines (`rest`) for metadata fields. -/
def mkImageRec (t : Chars) (rest : List Chars) : ImageRecord :=
  scanMeta rest 9
    { path := fieldVal 7 t, filename := "", title := "", size := "", orientation := "" }

/-- One iteration of the `for (lineIndex ...)` loop of
`parseMarkdownStructure`: `line` is `lines[lineIndex]`, `rest` the lines
after it (used by the image-metadata lookahead). -/
def stepLine (line : Chars) (rest : List Chars) (st : PState) : PState :=
  let t := jsTrim line
  if charsStartsWith ("# ".data) t && !charsStartsWith ("##".data) t then
    { doneRoot := st.doneRoot ++ closeRootTail st.tail
      rootImages := st.rootImages
      tail := .t1 ⟨⟨jsTrim (t.drop 2)⟩, [], [], .closedT⟩ }
  else if charsStartsWith ("## ".data) t && !charsStartsWith ("###".data) t then
    let o2 : Open2 := ⟨⟨jsTrim (t.drop 3)⟩, [], [], none⟩
    match st.tail with
    | .t1 o1 =>
      { st with tail := .t1 ⟨o1.name, o1.subs ++ closeTail1 o1.tail, o1.images, .sub o2⟩ }
    | tl =>
      { doneRoot := st.doneRoot ++ closeRootTail tl
        rootImages := st.rootImages
        tail := .t2 o2 }
  else if charsStartsWith ("### ".data) t then
    let o3 : Open3 := ⟨⟨jsTrim (t.drop 4)⟩, []⟩
    match st.tail with
    | .t1 o1 =>
      match o1.tail with
      | .sub o2 =>
        { st with tail := .t1 ⟨o1.name, o1.subs, o1.images,
            .sub ⟨o2.name, o2.subsub ++ closeOpt3 o2.open3, o2.images, some o3⟩⟩ }
      | tl1 =>
        { st with tail := .t1 ⟨o1.name, o1.subs ++ closeTail1 tl1, o1.images, .subsub o3⟩ }
    | .t2 o2 =>
      { st with tail := .t2 ⟨o2.name, o2.subsub ++ closeOpt3 o2.open3, o2.images, some o3⟩ }
    | tl =>
      { doneRoot := st.doneRoot ++ closeRootTail tl
        rootImages := st.rootImages
        tail := .t3 o3 }
  else if charsStartsWith ("- path:".data) t then
    let img := mkImageRec t rest
    match st.tail with
    | .t1 o1 =>
      match o1.tail with
      | .sub o2 =>
        match o2.open3 with
        | some o3 =>
          { st with tail := .t1 ⟨o1.name, o1.subs, o1.images,
              .sub ⟨o2.name, o2.subsub, o2.images, some ⟨o3.name, o3.images ++ [img]⟩⟩⟩ }
        | none =>
          { st with tail := .t1 ⟨o1.name, o1.subs, o1.images,
              .sub ⟨o2.name, o2.subsub, o2.images ++ [img], none⟩⟩ }
      | .subsub o3 =>
        { st with tail := .t1 ⟨o1.name, o1.subs, o1.images,
            .subsub ⟨o3.name, o3.images ++ [img]⟩⟩ }
      | .closedT =>
        { st with tail := .t1 ⟨o1.name, o1.subs, o1.images ++ [img], .closedT⟩ }
    | .t2 o2 =>
      match o2.open3 with
      | some o3 =>
        { st with tail := .t2 ⟨o2.name, o2.subsub, o2.images, some ⟨o3.name, o3.images ++ [img]⟩⟩ }
      | none =>
        { st with tail := .t2 ⟨o2.name, o2.subsub, o2.images ++ [img], none⟩ }
    | .t3 o3 =>
      { st with tail := .t3 ⟨o3.name, o3.images ++ [img]⟩ }
    | .closedT =>
      { st with rootImages := st.rootImages ++ [img] }
  else
    st

def scanLines : List Chars → PState → PState
  | [], st => st
  | l :: ls, st => scanLines ls (stepLine l ls st)

def initPState : PState := ⟨[], [], .closedT⟩

def finalize (st : PState) : MdStructure :=
  ⟨st.doneRoot ++ closeRootTail st.tail, st.rootImages⟩

/-- `parseMarkdownStructure` of Step2Analyze.jsx: `if (!content) return
null`, else scan line by line. -/
def parseMarkdownStructure (content : String) : Option MdStructure :=
  if content = "" then none
  else some (finalize (scanLines (toLines content) initPState))

/-! ### Claim-side views of the parser scan state -/

/-- Images of the deepest currently open group: the open level-3 group if
any, else the open level-2 group, else the open level-1 group, else the
document-root image list. -/
def deepestImages (st : PState) : List ImageRecord :=
  match st.tail with
  | .closedT => st.rootImages
  | .t1 o1 =>
    match o1.tail with
    | .closedT => o1.images
    | .sub o2 =>
      match o2.open3 with
      | some o3 => o3.images
      | none => o2.images
    | .subsub o3 => o3.images
  | .t2 o2 =>
    match o2.open3 with
    | some o3 => o3.images
    | none => o2.images
  | .t3 o3 => o3.images

/-- Replace the image list of the deepest currently open group (same
priority as `deepestImages`), leaving everything else unchanged. -/
def setDeepestImages (st : PState) (imgs : List ImageRecord) : PState :=
  match st.tail with
  | .closedT => { st with rootImages := imgs }
  | .t1 o1 =>
    match o1.tail with
    | .closedT => { st with tail := .t1 ⟨o1.name, o1.subs, imgs, .closedT⟩ }
    | .sub o2 =>
      match o2.open3 with
      | some o3 =>
        { st with tail := .t1 ⟨o1.name, o1.subs, o1.images,
            .sub ⟨o2.name, o2.subsub, o2.images, some ⟨o3.name, imgs⟩⟩⟩ }
      | none =>
        { st with tail := .t1 ⟨o1.name, o1.subs, o1.images,
            .sub ⟨o2.name, o2.subsub, imgs, none⟩⟩ }
    | .subsub o3 =>
      { st with tail := .t1 ⟨o1.name, o1.subs, o1.images, .subsub ⟨o3.name, imgs⟩⟩ }
  | .t2 o2 =>
    match o2.open3 with
    | some o3 => { st with tail := .t2 ⟨o2.name, o2.subsub, o2.images, some ⟨o3.name, imgs⟩⟩ }
    | none => { st with tail := .t2 ⟨o2.name, o2.subsub, imgs, none⟩ }
  | .t3 o3 => { st with tail := .t3 ⟨o3.name, imgs⟩ }

/-- Name of the open level-1 pointer (`currentGroup`), if any. -/
def cur1Name (st : PState) : Option String :=
  match st.tail with
  | .t1 o1 => some o1.name
  | _ => none

/-- Name of the open level-2 pointer (`currentSubGroup`), if any. -/
def cur2Name (st : PState) : Option String :=
  match st.tail with
  | .t1 o1 =>
    match o1.tail with
    | .sub o2 => some o2.name
    | _ => none
  | .t2 o2 => some o2.name
  | _ => none

/-- Name of the open level-3 pointer (`currentSubSubGroup`), if any. -/
def cur3Name (st : PState) : Option String :=
  match st.tail with
  | .t1 o1 =>
    match o1.tail with
    | .sub o2 =>
      match o2.open3 with
      | some o3 => some o3.name
      | none => none
    | .subsub o3 => some o3.name
    | .closedT => none
  | .t2 o2 =>
    match o2.open3 with
    | some o3 => some o3.name
    | none => none
  | .t3 o3 => some o3.name
  | .closedT => none

/-- The deepest open pointer, as a (level, name) pair. -/
def deepestOpen (st : PState) : Option (Nat × String) :=
  match cur3Name st with
  | some n => some (3, n)
  | none =>
    match cur2Name st with
    | some n => some (2, n)
    | none =>
      match cur1Name st with
      | some n => some (1, n)
      | none => none

/-- Which heading (level, name) a trimmed line introduces, mirroring the
three heading tests of the scan. -/
def headingOf (t : Chars) : Option (Nat × String) :=
  if charsStartsWith ("# ".data) t && !charsStartsWith ("##".data) t then
    some (1, ⟨jsTrim (t.drop 2)⟩)
  else if charsStartsWith ("## ".data) t && !charsStartsWith ("###".data) t then
    some (2, ⟨jsTrim (t.drop 3)⟩)
  else if charsStartsWith ("### ".data) t then
    some (3, ⟨jsTrim (t.drop 4)⟩)
  else
    none

/-- Written from the claim (C7): on a heading of level `lvl`, all pointers
at levels strictly greater than `lvl` are reset, the new group is attached
to the nearest still-open ancestor group — or to the document root when no
ancestor is open — and the new (empty) group becomes the deepest open
pointer. -/
def claimHeadingStep (lvl : Nat) (nm : String) (st : PState) : PState :=
  if lvl = 1 then
    ⟨st.doneRoot ++ closeRootTail st.tail, st.rootImages, .t1 ⟨nm, [], [], .closedT⟩⟩
  else if lvl = 2 then
    match st.tail with
    | .t1 o1 =>
      ⟨st.doneRoot, st.rootImages,
        .t1 ⟨o1.name, o1.subs ++ closeTail1 o1.tail, o1.images, .sub ⟨nm, [], [], none⟩⟩⟩
    | tl =>
      ⟨st.doneRoot ++ closeRootTail tl, st.rootImages, .t2 ⟨nm, [], [], none⟩⟩
  else
    match st.tail with
    | .t1 o1 =>
      match o1.tail with
      | .sub o2 =>
        ⟨st.doneRoot, st.rootImages,
          .t1 ⟨o1.name, o1.subs, o1.images,
            .sub ⟨o2.name, o2.subsub ++ closeOpt3 o2.open3, o2.images, some ⟨nm, []⟩⟩⟩⟩
      | tl1 =>
        ⟨st.doneRoot, st.rootImages,
          .t1 ⟨o1.name, o1.subs ++ closeTail1 tl1, o1.images, .subsub ⟨nm, []⟩⟩⟩
    | .t2 o2 =>
      ⟨st.doneRoot, st.rootImages,
        .t2 ⟨o2.name, o2.subsub ++ closeOpt3 o2.open3, o2.images, some ⟨nm, []⟩⟩⟩
    | tl =>
      ⟨st.doneRoot ++ closeRootTail tl, st.rootImages, .t3 ⟨nm, []⟩⟩

/-- Written from the claim (C8): the lines the metadata lookahead may take
fields from — at most the next 9 lines, cut at the first line whose
trimmed text starts with `-` or `#`. -/
def metaWindow (rest : List Chars) : List Chars :=
  ((rest.take 9).map jsTrim).takeWhile
    (fun t => !(charsStartsWith ['-'] t || charsStartsWith ['#'] t))

/-- Field extraction from one examined lookahead line. -/
def applyMetaLine (img : ImageRecord) (t : Chars) : ImageRecord :=
  if charsStartsWith ("filename:".data) t then { img with filename := fieldVal 9 t }
  else if charsStartsWith ("title:".data) t then { img with title := fieldVal 6 t }
  else if charsStartsWith ("size:".data) t then { img with size := fieldVal 5 t }
  else if charsStartsWith ("orientation:".data) t then { img with orientation := fieldVal 12 t }
  else img

/-- The image record before the lookahead: path from the `- path:` line,
all other fields empty. -/
def initImage (t : Chars) : ImageRecord :=
  { path := fieldVal 7 t, filename := "", title := "", size := "", orientation := "" }

/-! ### Upload orchestrator (Step1Upload, part_004) -/

structure UploadFile where
  name : String
  size : Nat
deriving Repr, DecidableEq

/-- Body of a successful `POST /api/upload` response, as read by
`handleUpload` (`data.job_id`, `data.session_id`, `data.count`,
`data.files`, `data.extracted_dirs`).  `none` models an absent (or
falsy) field. -/
structure UploadResponse where
  job_id : Option String
  session_id : Option String
  count : Option Nat
  files : List String
  extracted_dirs : Option (List String)
deriving Repr, DecidableEq

/-- The failure cases distinguished by the `catch` block of
`handleUpload`, in branch order: abort/timeout (`ECONNABORTED` /
`AbortError`), an HTTP error response, a transport error with a
`message`, anything else. -/
inductive UploadErr where
  | aborted
  | httpResponse (status : Nat) (detail : String)
  | message (msg : String)
  | other (descr : String)
deriving Repr, DecidableEq

def exceptOk {ε α : Type} : Except ε α → Bool
  | .ok _ => true
  | .error _ => false

/-- The error-message classification of the `catch` block.  The abort,
413 and 408/504 branches interpolate `totalSizeMB`, a variable that is
declared nowhere in the component; evaluating those template literals
raises a `ReferenceError`, modelled as `Except.error ()`.  The 500,
generic-status, `message` and fallback branches build their strings
normally. -/
def classifyUploadError (isZh : Bool) (e : UploadErr) : Except Unit String :=
  match e with
  | .aborted => .error ()
  | .httpResponse status detail =>
    if status = 413 then .error ()
    else if status = 408 ∨ status = 504 then .error ()
    else if status = 500 then
      .ok (if isZh then "服务器错误: " ++ detail ++ "。请检查文件格式是否正确。"
           else "Server error: " ++ detail ++ ". Please check if file formats are correct.")
    else
      .ok (if isZh then "上传失败 (HTTP " ++ toString status ++ "): " ++ detail
           else "Upload failed (HTTP " ++ toString status ++ "): " ++ detail)
  | .message msg => .ok msg
  | .other descr =>
    .ok (if isZh then "上传失败: " ++ descr else "Upload failed: " ++ descr)

/-- The accumulated `uploadResult` component state (`count`, `files`,
`extracted_dirs`, plus the identifiers of the first response). -/
structure StoredResult where
  job_id : Option String
  session_id : Option String
  count : Nat
  files : List String
  extracted_dirs : List String
deriving Repr, DecidableEq

/-- Component state of `Step1Upload` relevant to the upload routine and
the confirm gating.  `localJobId` is the durable
`localStorage['i2pptt_current_job_id']` entry. -/
structure UpState where
  uploadedFiles : List UploadFile
  fileProgress : List (String × Nat)
  uploadedFileNames : List String
  isUploading : Bool
  uploadResult : Option StoredResult
  error : Option String
  currentJobId : Option String
  localJobId : Option String
deriving Repr, DecidableEq

/-- JS `setFileProgress(prev => ({ ...prev, [name]: v }))`: upsert. -/
def setProgress (ps : List (String × Nat)) (n : String) (v : Nat) : List (String × Nat) :=
  if ps.any (fun p => p.1 == n) then
    ps.map (fun p => if p.1 == n then (n, v) else p)
  else
    ps ++ [(n, v)]

/-- JS `fileProgress[name] || 0`. -/
def progressOf (s : UpState) (n : String) : Nat :=
  match s.fileProgress.find? (fun p => p.1 == n) with
  | some p => p.2
  | none => 0

/-- JS `Set.prototype.add`: append if absent (insertion order kept). -/
def addName (ns : List String) (n : String) : List String :=
  if ns.contains n then ns else ns ++ [n]

/-- JS `data.count || 1` (`0` and absent are both falsy). -/
def countOrOne (r : UploadResponse) : Nat :=
  match r.count with
  | some c => if c = 0 then 1 else c
  | none => 1

/-- Mutable loop state of the upload `for` loop, plus the trace
`attempted` of file names actually POSTed. -/
structure LoopAcc where
  progress : List (String × Nat)
  names : List String
  curJob : Option String
  localJob : Option String
  accum : Option UploadResponse
  totalUp : Nat
  totalDirs : List String
  attempted : List String
deriving Repr, DecidableEq

/-- Successful-response part of one loop iteration: mark progress 100,
add the file name to the uploaded set, adopt the first job id (state and
durable storage), accumulate count/files/extracted dirs. -/
def loopStepOk (f : UploadFile) (data : UploadResponse) (acc : LoopAcc) : LoopAcc :=
  { acc with
      progress := setProgress acc.progress f.name 100
      names := addName acc.names f.name
      curJob := (match acc.curJob, data.job_id with
        | none, some j => some j
        | cj, _ => cj)
      localJob := (match acc.curJob, data.job_id with
        | none, some j => some j
        | _, _ => acc.localJob)
      totalUp := acc.totalUp + countOrOne data
      totalDirs := acc.totalDirs ++ data.extracted_dirs.getD []
      accum := some (match acc.accum with
        | none => data
        | some a => { a with files := a.files ++ data.files }) }

/-- The `for (const file of filesToUpload)` loop: initialize progress to
0, POST (consult `env`), on success apply `loopStepOk` and continue; on
failure stop at once. -/
def runLoop (env : String → Except UploadErr UploadResponse) :
    List UploadFile → LoopAcc → LoopAcc × Option UploadErr
  | [], acc => (acc, none)
  | f :: fs, acc =>
    let acc1 : LoopAcc :=
      { acc with progress := setProgress acc.progress f.name 0
                 attempted := acc.attempted ++ [f.name] }
    match env f.name with
    | .error e => (acc1, some e)
    | .ok data => runLoop env fs (loopStepOk f data acc1)

/-- `filesToUpload`: the selected files not yet marked uploaded. -/
def pendingFiles (s : UpState) : List UploadFile :=
  s.uploadedFiles.filter (fun f => !(s.uploadedFileNames.contains f.name))

/-- The final `setUploadResult` merge on full success of the loop. -/
def mergeStored (prev : Option StoredResult) (acc : LoopAcc) : Option StoredResult :=
  match prev, acc.accum with
  | some p, a? =>
    some { p with count := p.count + acc.totalUp
                  files := p.files ++ (match a? with | some a => a.files | none => [])
                  extracted_dirs := p.extracted_dirs ++ acc.totalDirs }
  | none, some a =>
    some { job_id := a.job_id, session_id := a.session_id, count := acc.totalUp
           files := a.files, extracted_dirs := acc.totalDirs }
  | none, none => none

def noFilesMsg (isZh : Bool) : String :=
  if isZh then "没有需要上传的文件" else "No files to upload"

/-- Result of one invocation of `handleUpload`: the final component
state, whether an exception escaped the handler (unhandled rejection),
and the trace of file names POSTed. -/
structure UploadRun where
  state : UpState
  threw : Bool
  attempted : List String
deriving Repr, DecidableEq

/-- The loop state at entry of the upload loop: progress map, uploaded
set and job ids from the component state, empty accumulators. -/
def initAccOf (s : UpState) : LoopAcc :=
  ⟨s.fileProgress, s.uploadedFileNames, s.currentJobId, s.localJobId, none, 0, [], []⟩

/-- `handleUpload` of Step1Upload. `env` gives the outcome of the single
POST for each file name during this invocation. -/
def handleUpload (env : String → Except UploadErr UploadResponse) (isZh : Bool)
    (s : UpState) : UploadRun :=
  let filesToUpload := pendingFiles s
  if filesToUpload.isEmpty then
    { state := { s with error := some (noFilesMsg isZh) }, threw := false, attempted := [] }
  else
    match runLoop env filesToUpload (initAccOf s) with
    | (acc, none) =>
      { state := { s with fileProgress := acc.progress
                          uploadedFileNames := acc.names
                          currentJobId := acc.curJob
                          localJobId := acc.localJob
                          uploadResult := mergeStored s.uploadResult acc
                          error := none
                          isUploading := false }
        threw := false
        attempted := acc.attempted }
    | (acc, some e) =>
      let base : UpState :=
        { s with fileProgress := acc.progress
                 uploadedFileNames := acc.names
                 currentJobId := acc.curJob
                 localJobId := acc.localJob
                 isUploading := false }
      match classifyUploadError isZh e with
      | .ok msg =>
        { state := { base with error := some msg }, threw := false, attempted := acc.attempted }
      | .error _ =>
        { state := { base with error := none }, threw := true, attempted := acc.attempted }

/-- `uploadResult?.extracted_dirs?.length` with JS optional chaining:
0 when no upload result yet. -/
def extractedLen (s : UpState) : Nat :=
  match s.uploadResult with
  | some r => r.extracted_dirs.length
  | none => 0

/-- The `disabled` expression of the Confirm & Next button. -/
def confirmDisabled (s : UpState) : Bool :=
  decide (s.uploadedFiles.length = 0) ||
  (decide (s.uploadedFiles.length ≤ 1) && decide (extractedLen s = 0)) ||
  s.uploadedFiles.any
    (fun f => !(s.uploadedFileNames.contains f.name) || decide (progressOf s f.name < 100)) ||
  s.isUploading

/-! ### Wizard step/job state machine (TabBar.jsx App) -/

/-- App-level wizard state: current step, reachable-step high-water mark,
job id in component state, fetched job object (opaque), and the persisted
`localStorage['i2pptt_current_job_id']` entry. -/
structure WizardState where
  currentStep : Nat
  maxReachedStep : Nat
  currentJobId : Option String
  currentJob : Option String
  localJobId : Option String
deriving Repr, DecidableEq

/-- `handleStepChange` of the App component.  The `step <=
maxReachedStep` test reads the render-closure (pre-update) value of
`maxReachedStep`. -/
def handleStepChange (step : Nat) (s : WizardState) : WizardState :=
  let s1 :=
    if step = 1 then
      { s with currentJobId := none, currentJob := none, localJobId := none, maxReachedStep := 1 }
    else s
  if step ≤ s.maxReachedStep then { s1 with currentStep := step } else s1

/-! ### Concrete sample states and environments used by witnesses -/

/-- Two selected files, both uploaded with progress 100, result with no
extracted archives, no upload in flight. -/
def sampleGate : UpState :=
  { uploadedFiles := [⟨"a", 1⟩, ⟨"b", 2⟩]
    fileProgress := [("a", 100), ("b", 100)]
    uploadedFileNames := ["a", "b"]
    isUploading := false
    uploadResult := some ⟨some "J", none, 2, ["a", "b"], []⟩
    error := none
    currentJobId := some "J"
    localJobId := some "J" }

/-- Three selected files, none uploaded yet. -/
def sampleBatch : UpState :=
  { uploadedFiles := [⟨"a", 1⟩, ⟨"b", 2⟩, ⟨"c", 3⟩]
    fileProgress := []
    uploadedFileNames := []
    isUploading := false
    uploadResult := none
    error := none
    currentJobId := none
    localJobId := none }

/-- Upload outcome map where file `b` fails with HTTP 500 and every
other file succeeds. -/
def sampleEnv : String → Except UploadErr UploadResponse := fun n =>
  if n = "b" then .error (.httpResponse 500 "boom")
  else .ok ⟨some "J", none, some 1, [n], some []⟩

/-- Upload outcome map where every file succeeds. -/
def sampleEnvOk : String → Except UploadErr UploadResponse := fun n =>
  .ok ⟨some "J", none, some 1, [n], some []⟩

/-- Wizard state on step 2 with high-water mark 3 and a live job. -/
def sampleWizard : WizardState :=
  { currentStep := 2, maxReachedStep := 3, currentJobId := some "J"
    currentJob := some "job", localJobId := some "J" }

/-! ## Theorems -/

/-- Sanity: the worked example of spec.md §8 parses to the stated tree. -/
theorem spec_example_parse :
    parseMarkdownStructure "# A\n## B\n- path: a/1.png\nfilename: 1.png\nsize: 100x100\n" =
      some ⟨[.g1 "A" [.g2 "B" [] [⟨"a/1.png", "1.png", "", "100x100", ""⟩]] []], []⟩ := by
  rfl

/-- Helper: a line starting with character `c` (≠ `-`, `#`) is not a
lookahead stop line. -/
theorem head_not_dash_hash {c : Char} {p t : Chars} (h : charsStartsWith (c :: p) t = true)
    (h1 : (('-' : Char) == c) = false) (h2 : (('#' : Char) == c) = false) :
    charsStartsWith ['-'] t = false ∧ charsStartsWith ['#'] t = false := by
  obtain ⟨u, hu⟩ := (charsStartsWith_iff _ _).1 h
  subst hu
  constructor <;> simp [charsStartsWith, List.isPrefixOf, h1, h2]

/-- C2 counterexample: in `"### A\n#### B"` the `####` heading line is
dropped entirely — the resulting tree holds only the level-3 group `A`,
with no images and no group `B` anywhere, instead of a group `B` inside
the level-3 container as the claim states. -/
theorem c2_deep_heading_counterexample :
    parseMarkdownStructure "### A\n#### B" = some ⟨[Group.g3 "A" []], []⟩ := by
  rfl

/-- C2 (amended): a line whose trimmed text starts with `####` (four or
more `#`) matches none of the scan's branches: it is skipped, creating no
group at any level and leaving the scan state unchanged. -/
theorem c2_deep_heading_is_skipped (line : Chars) (rest : List Chars) (st : PState)
    (h : charsStartsWith ("####".data) (jsTrim line) = true) :
    stepLine line rest st = st := by
  obtain ⟨u, hu⟩ := (charsStartsWith_iff _ _).1 h
  have h1 : charsStartsWith ("# ".data) (jsTrim line) = false := by
    rw [hu]; simp [charsStartsWith, List.isPrefixOf]
  have h2 : charsStartsWith ("## ".data) (jsTrim line) = false := by
    rw [hu]; simp [charsStartsWith, List.isPrefixOf]
  have h3 : charsStartsWith ("### ".data) (jsTrim line) = false := by
    rw [hu]; simp [charsStartsWith, List.isPrefixOf]
  have h4 : charsStartsWith ("- path:".data) (jsTrim line) = false := by
    rw [hu]; simp [charsStartsWith, List.isPrefixOf]
  simp [stepLine, h1, h2, h3, h4]

/-- C2 witness: the amended theorem applied to the line `#### B`. -/
theorem c2_deep_heading_is_skipped_w :
    charsStartsWith ("####".data) (jsTrim "#### B".data) = true
    ∧ stepLine "#### B".data [] initPState = initPState :=
  ⟨by decide, c2_deep_heading_is_skipped "#### B".data [] initPState (by decide)⟩

/-- C6: an image entry line (`- path:` after trimming) appends its image
record to the deepest currently open group — the open level-3 group if
any, else level-2, else level-1, else the document-root image list — and
changes nothing else; in particular, with no heading open the record goes
to the root image list. -/
theorem c6_image_attaches_deepest (line : Chars) (rest : List Chars) (st : PState)
    (h : charsStartsWith ("- path:".data) (jsTrim line) = true) :
    stepLine line rest st
        = setDeepestImages st (deepestImages st ++ [mkImageRec (jsTrim line) rest])
      ∧ (st.tail = RootTail.closedT →
          (stepLine line rest st).rootImages
            = st.rootImages ++ [mkImageRec (jsTrim line) rest]) := by
  obtain ⟨u, hu⟩ := (charsStartsWith_iff _ _).1 h
  have h1 : charsStartsWith ("# ".data) (jsTrim line) = false := by
    rw [hu]; simp [charsStartsWith, List.isPrefixOf]
  have h2 : charsStartsWith ("## ".data) (jsTrim line) = false := by
    rw [hu]; simp [charsStartsWith, List.isPrefixOf]
  have h3 : charsStartsWith ("### ".data) (jsTrim line) = false := by
    rw [hu]; simp [charsStartsWith, List.isPrefixOf]
  obtain ⟨dr, ri, tl⟩ := st
  constructor
  · cases tl with
    | closedT => simp [stepLine, setDeepestImages, deepestImages, h1, h2, h3, h]
    | t1 o1 =>
      obtain ⟨n1, s1, i1, tl1⟩ := o1
      cases tl1 with
      | closedT => simp [stepLine, setDeepestImages, deepestImages, h1, h2, h3, h]
      | sub o2 =>
        obtain ⟨n2, s2, i2, o3o⟩ := o2
        cases o3o with
        | none => simp [stepLine, setDeepestImages, deepestImages, h1, h2, h3, h]
        | some o3 => simp [stepLine, setDeepestImages, deepestImages, h1, h2, h3, h]
      | subsub o3 => simp [stepLine, setDeepestImages, deepestImages, h1, h2, h3, h]
    | t2 o2 =>
      obtain ⟨n2, s2, i2, o3o⟩ := o2
      cases o3o with
      | none => simp [stepLine, setDeepestImages, deepestImages, h1, h2, h3, h]
      | some o3 => simp [stepLine, setDeepestImages, deepestImages, h1, h2, h3, h]
    | t3 o3 => simp [stepLine, setDeepestImages, deepestImages, h1, h2, h3, h]
  · intro htail
    cases tl with
    | closedT => simp [stepLine, h1, h2, h3, h]
    | t1 o1 => simp at htail
    | t2 o2 => simp at htail
    | t3 o3 => simp at htail

/-- C6 witness: an image line in a document with no heading open lands in
the root image list. -/
theorem c6_image_attaches_deepest_w :
    charsStartsWith ("- path:".data) (jsTrim "- path: a.png".data) = true
    ∧ (stepLine "- path: a.png".data [] initPState
          = setDeepestImages initPState
              (deepestImages initPState ++ [mkImageRec (jsTrim "- path: a.png".data) []])
        ∧ (initPState.tail = RootTail.closedT →
            (stepLine "- path: a.png".data [] initPState).rootImages
              = initPState.rootImages ++ [mkImageRec (jsTrim "- path: a.png".data) []])) :=
  ⟨by decide, c6_image_attaches_deepest "- path: a.png".data [] initPState (by decide)⟩

/-- C7: on a heading line of level `lvl` (1, 2 or 3) with name `nm`, one
scan step equals the claim-side step `claimHeadingStep` (attach to the
nearest still-open ancestor, else the document root); moreover all
pointers at levels deeper than `lvl` are reset (and the level-1 pointer
survives a level-2 heading), and the fresh group becomes the deepest open
pointer. -/
theorem c7_heading_step (line : Chars) (rest : List Chars) (st : PState)
    (lvl : Nat) (nm : String)
    (h : headingOf (jsTrim line) = some (lvl, nm)) :
    stepLine line rest st = claimHeadingStep lvl nm st
    ∧ (lvl = 1 → cur2Name (stepLine line rest st) = none
        ∧ cur3Name (stepLine line rest st) = none)
    ∧ (lvl = 2 → cur3Name (stepLine line rest st) = none
        ∧ cur1Name (stepLine line rest st) = cur1Name st)
    ∧ deepestOpen (stepLine line rest st) = some (lvl, nm) := by
  unfold headingOf at h
  split_ifs at h with hA hB hC
  · simp only [Option.some.injEq, Prod.mk.injEq] at h
    obtain ⟨h5, h6⟩ := h
    subst h5; subst h6
    have key : stepLine line rest st = claimHeadingStep 1 ⟨jsTrim ((jsTrim line).drop 2)⟩ st := by
      simp [stepLine, claimHeadingStep, hA]
    refine ⟨key, fun _ => ?_, fun h' => absurd h' (by decide), ?_⟩
    · rw [key]; simp [claimHeadingStep, cur2Name, cur3Name]
    · rw [key]; simp [claimHeadingStep, deepestOpen, cur1Name, cur2Name, cur3Name]
  · simp only [Option.some.injEq, Prod.mk.injEq] at h
    obtain ⟨h5, h6⟩ := h
    subst h5; subst h6
    have key : stepLine line rest st = claimHeadingStep 2 ⟨jsTrim ((jsTrim line).drop 3)⟩ st := by
      obtain ⟨dr, ri, tl⟩ := st
      cases tl <;> simp [stepLine, claimHeadingStep, hA, hB]
    refine ⟨key, fun h' => absurd h' (by decide), fun _ => ?_, ?_⟩
    · rw [key]
      obtain ⟨dr, ri, tl⟩ := st
      cases tl <;> simp [claimHeadingStep, cur1Name, cur3Name]
    · rw [key]
      obtain ⟨dr, ri, tl⟩ := st
      cases tl <;> simp [claimHeadingStep, deepestOpen, cur1Name, cur2Name, cur3Name]
  · simp only [Option.some.injEq, Prod.mk.injEq] at h
    obtain ⟨h5, h6⟩ := h
    subst h5; subst h6
    have key : stepLine line rest st = claimHeadingStep 3 ⟨jsTrim ((jsTrim line).drop 4)⟩ st := by
      obtain ⟨dr, ri, tl⟩ := st
      cases tl with
      | t1 o1 =>
        obtain ⟨n1, s1, i1, tl1⟩ := o1
        cases tl1 <;> simp [stepLine, claimHeadingStep, hA, hB, hC]
      | closedT => simp [stepLine, claimHeadingStep, hA, hB, hC]
      | t2 o2 => simp [stepLine, claimHeadingStep, hA, hB, hC]
      | t3 o3 => simp [stepLine, claimHeadingStep, hA, hB, hC]
    refine ⟨key, fun h' => absurd h' (by decide), fun h' => absurd h' (by decide), ?_⟩
    rw [key]
    obtain ⟨dr, ri, tl⟩ := st
    cases tl with
    | t1 o1 =>
      obtain ⟨n1, s1, i1, tl1⟩ := o1
      cases tl1 <;> simp [claimHeadingStep, deepestOpen, cur1Name, cur2Name, cur3Name]
    | closedT => simp [claimHeadingStep, deepestOpen, cur1Name, cur2Name, cur3Name]
    | t2 o2 => simp [claimHeadingStep, deepestOpen, cur1Name, cur2Name, cur3Name]
    | t3 o3 => simp [claimHeadingStep, deepestOpen, cur1Name, cur2Name, cur3Name]

/-- C7 witness: the theorem applied to the heading line `## Sub` in the
initial scan state. -/
theorem c7_heading_step_w :
    headingOf (jsTrim "## Sub".data) = some (2, "Sub")
    ∧ (stepLine "## Sub".data [] initPState = claimHeadingStep 2 "Sub" initPState
      ∧ ((2 : Nat) = 1 → cur2Name (stepLine "## Sub".data [] initPState) = none
          ∧ cur3Name (stepLine "## Sub".data [] initPState) = none)
      ∧ ((2 : Nat) = 2 → cur3Name (stepLine "## Sub".data [] initPState) = none
          ∧ cur1Name (stepLine "## Sub".data [] initPState) = cur1Name initPState)
      ∧ deepestOpen (stepLine "## Sub".data [] initPState) = some (2, "Sub")) :=
  ⟨by decide, c7_heading_step "## Sub".data [] initPState 2 "Sub" (by decide)⟩

/-- Helper for C8: the lookahead loop with any fuel equals a fold over
the trimmed window cut at the first `-`/`#` line. -/
theorem scanMeta_fold_aux (rest : List Chars) : ∀ (fuel : Nat) (img : ImageRecord),
    scanMeta rest fuel img =
      (((rest.take fuel).map jsTrim).takeWhile
        (fun t => !(charsStartsWith ['-'] t || charsStartsWith ['#'] t))).foldl
        applyMetaLine img := by
  induction rest with
  | nil => intro fuel img; cases fuel <;> simp [scanMeta]
  | cons l ls ih =>
    intro fuel img
    cases fuel with
    | zero => simp [scanMeta]
    | succ fuel =>
      by_cases hf : charsStartsWith ("filename:".data) (jsTrim l) = true
      · obtain ⟨hd1, hd2⟩ := head_not_dash_hash
          (show charsStartsWith ('f' :: "ilename:".data) (jsTrim l) = true from hf)
          (by decide) (by decide)
        simp [scanMeta, applyMetaLine, hf, hd1, hd2, ih]
      · by_cases ht : charsStartsWith ("title:".data) (jsTrim l) = true
        · obtain ⟨hd1, hd2⟩ := head_not_dash_hash
            (show charsStartsWith ('t' :: "itle:".data) (jsTrim l) = true from ht)
            (by decide) (by decide)
          simp [scanMeta, applyMetaLine, hf, ht, hd1, hd2, ih]
        · by_cases hs : charsStartsWith ("size:".data) (jsTrim l) = true
          · obtain ⟨hd1, hd2⟩ := head_not_dash_hash
              (show charsStartsWith ('s' :: "ize:".data) (jsTrim l) = true from hs)
              (by decide) (by decide)
            simp [scanMeta, applyMetaLine, hf, ht, hs, hd1, hd2, ih]
          · by_cases ho : charsStartsWith ("orientation:".data) (jsTrim l) = true
            · obtain ⟨hd1, hd2⟩ := head_not_dash_hash
                (show charsStartsWith ('o' :: "rientation:".data) (jsTrim l) = true from ho)
                (by decide) (by decide)
              simp [scanMeta, applyMetaLine, hf, ht, hs, ho, hd1, hd2, ih]
            · by_cases hd : charsStartsWith ['-'] (jsTrim l) = true
              · simp [scanMeta, applyMetaLine, hf, ht, hs, ho, hd]
              · by_cases hh : charsStartsWith ['#'] (jsTrim l) = true
                · simp [scanMeta, applyMetaLine, hf, ht, hs, ho, hd, hh]
                · simp [scanMeta, applyMetaLine, hf, ht, hs, ho, hd, hh, ih]

/-- C8: the metadata lookahead for an image line examines only the next 9
lines, stops at the first examined line whose trimmed text starts with
`-` or `#`, and takes fields exactly from the lines before that stopping
point: building the record equals folding the field extraction over
`metaWindow rest`. -/
theorem c8_meta_lookahead_window (t : Chars) (rest : List Chars) :
    mkImageRec t rest = (metaWindow rest).foldl applyMetaLine (initImage t) := by
  unfold mkImageRec metaWindow initImage
  exact scanMeta_fold_aux rest 9 _

/-- Helper for C10: the lookahead never modifies the `path` field. -/
theorem scanMeta_path (rest : List Chars) : ∀ (fuel : Nat) (img : ImageRecord),
    (scanMeta rest fuel img).path = img.path := by
  induction rest with
  | nil => intro fuel img; cases fuel <;> simp [scanMeta]
  | cons l ls ih =>
    intro fuel img
    cases fuel with
    | zero => simp [scanMeta]
    | succ fuel =>
      simp only [scanMeta]
      repeat' split
      all_goals simp [ih]

/-- C10 counterexample: on `"# \n- path: x"` the heading-marker line with
no content (trims to a bare `#`) produces NO group at all — the result
has an empty group list and the image in the root list — instead of a
group whose name is stored as the empty string, as the claim states. -/
theorem c10_empty_heading_counterexample :
    parseMarkdownStructure "# \n- path: x" = some ⟨[], [⟨"x", "", "", "", ""⟩]⟩ := by
  rfl

/-- C10 (amended): the parser is total and never fails: empty input
returns `none` (JS `null`); any non-empty input returns a structure; an
image entry with no value after `path:` stores the path as the empty
string; and a heading-marker line with no content after the marker (it
trims to a bare `#`, `##` or `###`) is skipped without creating a
group. -/
theorem c10_parser_total_graceful :
    (parseMarkdownStructure "" = none)
    ∧ (∀ content : String, content ≠ "" → (parseMarkdownStructure content).isSome = true)
    ∧ (∀ t rest, charsStartsWith ("- path:".data) t = true → jsTrim (t.drop 7) = [] →
        (mkImageRec t rest).path = "")
    ∧ (∀ line rest st,
        (jsTrim line = "#".data ∨ jsTrim line = "##".data ∨ jsTrim line = "###".data) →
        stepLine line rest st = st) := by
  refine ⟨rfl, ?_, ?_, ?_⟩
  · intro content hc
    simp [parseMarkdownStructure, hc]
  · intro t rest hpre hempty
    unfold mkImageRec
    rw [scanMeta_path]
    simp [fieldVal, hempty]
  · intro line rest st h
    rcases h with h | h | h <;> simp [stepLine, h, charsStartsWith, List.isPrefixOf]

/-- C10 witness: the amended theorem applied at concrete inputs. -/
theorem c10_parser_total_graceful_w :
    ("x" ≠ "") ∧ ((parseMarkdownStructure "x").isSome = true)
    ∧ ((mkImageRec "- path:".data []).path = "")
    ∧ (stepLine "##".data [] initPState = initPState) :=
  ⟨by decide,
   c10_parser_total_graceful.2.1 "x" (by decide),
   c10_parser_total_graceful.2.2.1 "- path:".data [] (by decide) (by decide),
   c10_parser_total_graceful.2.2.2 "##".data [] initPState (by decide)⟩

/-- C1 (code bug): when an upload fails with HTTP 413 (and likewise for
abort/timeout, 408 and 504), the catch block's message template reads the
undeclared variable `totalSizeMB`, so a `ReferenceError` escapes the
handler and no error message is stored for display — `threw = true` and
`error = none`.  Only the 500 and generic-status branches (and the
`message`/fallback branches) produce a stored message as the spec
describes. -/
theorem c1_upload_error_message_lost :
    ((handleUpload (fun _ => .error (.httpResponse 413 "Payload Too Large")) false
        ⟨[⟨"a.png", 5⟩], [], [], false, none, none, none, none⟩).threw = true
      ∧ (handleUpload (fun _ => .error (.httpResponse 413 "Payload Too Large")) false
        ⟨[⟨"a.png", 5⟩], [], [], false, none, none, none, none⟩).state.error = none)
    ∧ classifyUploadError false UploadErr.aborted = .error ()
    ∧ classifyUploadError false (.httpResponse 408 "t") = .error ()
    ∧ classifyUploadError false (.httpResponse 504 "t") = .error ()
    ∧ classifyUploadError false (.httpResponse 500 "boom")
        = .ok "Server error: boom. Please check if file formats are correct." :=
  ⟨⟨rfl, rfl⟩, rfl, rfl, rfl, rfl⟩

/-- C3: under the program invariant that every stored progress value is
at most 100, the Confirm & Next button is enabled exactly when at least
one file is selected, more than one file is selected or an extracted
directory is present, every selected file is marked uploaded with
progress 100, and no upload is in flight; in particular it is disabled
with exactly one file and no extracted archive. -/
theorem c3_confirm_gate (s : UpState)
    (hp : ∀ f ∈ s.uploadedFiles, progressOf s f.name ≤ 100) :
    (confirmDisabled s = false ↔
      (s.uploadedFiles ≠ []
        ∧ (1 < s.uploadedFiles.length ∨ extractedLen s ≠ 0)
        ∧ (∀ f ∈ s.uploadedFiles,
            s.uploadedFileNames.contains f.name = true ∧ progressOf s f.name = 100)
        ∧ s.isUploading = false))
    ∧ ((s.uploadedFiles.length = 1 ∧ extractedLen s = 0) → confirmDisabled s = true) := by
  constructor
  · simp only [confirmDisabled, Bool.or_eq_false_iff, List.any_eq_false,
      decide_eq_false_iff_not]
    constructor
    · rintro ⟨⟨⟨h1, h2⟩, h3⟩, h4⟩
      simp only [Bool.and_eq_false_iff, decide_eq_false_iff_not, not_le] at h2
      refine ⟨by intro hnl; exact h1 (by rw [hnl]; rfl), ?_, ?_, h4⟩
      · rcases h2 with h | h
        · exact Or.inl h
        · exact Or.inr h
      · intro f hf
        have h5 := h3 f hf
        simp only [Bool.or_eq_true, Bool.not_eq_true', decide_eq_true_eq, not_or, not_lt] at h5
        have h6 := hp f hf
        exact ⟨by simpa using h5.1, by omega⟩
    · rintro ⟨h1, h2, h3, h4⟩
      refine ⟨⟨⟨?_, ?_⟩, ?_⟩, h4⟩
      · intro h0
        exact h1 (List.length_eq_zero.1 h0)
      · simp only [Bool.and_eq_false_iff, decide_eq_false_iff_not, not_le]
        rcases h2 with h | h
        · exact Or.inl h
        · exact Or.inr h
      · intro f hf
        have h5 := h3 f hf
        simp only [Bool.or_eq_true, Bool.not_eq_true', decide_eq_true_eq, not_or, not_lt]
        exact ⟨by simpa using h5.1, by omega⟩
  · rintro ⟨h1, h2⟩
    simp [confirmDisabled, h1, h2]

/-- C3 witness: the gate theorem applied to `sampleGate` (two files, both
fully uploaded, idle). -/
theorem c3_confirm_gate_w :
    (∀ f ∈ sampleGate.uploadedFiles, progressOf sampleGate f.name ≤ 100)
    ∧ ((confirmDisabled sampleGate = false ↔
        (sampleGate.uploadedFiles ≠ []
          ∧ (1 < sampleGate.uploadedFiles.length ∨ extractedLen sampleGate ≠ 0)
          ∧ (∀ f ∈ sampleGate.uploadedFiles,
              sampleGate.uploadedFileNames.contains f.name = true
              ∧ progressOf sampleGate f.name = 100)
          ∧ sampleGate.isUploading = false))
      ∧ ((sampleGate.uploadedFiles.length = 1 ∧ extractedLen sampleGate = 0) →
          confirmDisabled sampleGate = true)) :=
  ⟨by decide, c3_confirm_gate sampleGate (by decide)⟩

/-- Helper: the names set after a successful loop step. -/
theorem loopStepOk_names (f : UploadFile) (d : UploadResponse) (a : LoopAcc) :
    (loopStepOk f d a).names = addName a.names f.name := rfl

/-- Helper: a successful loop step does not change the attempted trace. -/
theorem loopStepOk_attempted (f : UploadFile) (d : UploadResponse) (a : LoopAcc) :
    (loopStepOk f d a).attempted = a.attempted := rfl

/-- Helper for C4: running the loop on `l₁ ++ k :: l₂` where every file
of `l₁` succeeds and `k` fails stops at `k` with exactly the names of
`l₁` newly added and exactly `l₁`'s names plus `k` attempted. -/
theorem runLoop_ok_then_fail (env : String → Except UploadErr UploadResponse)
    (k : UploadFile) (e : UploadErr) (l₂ : List UploadFile)
    (hk : env k.name = .error e) :
    ∀ (l₁ : List UploadFile) (acc : LoopAcc),
    (∀ f ∈ l₁, exceptOk (env f.name) = true) →
    (∀ f ∈ l₁, acc.names.contains f.name = false) →
    (l₁.map (fun f => f.name)).Nodup →
    (runLoop env (l₁ ++ k :: l₂) acc).2 = some e
    ∧ (runLoop env (l₁ ++ k :: l₂) acc).1.names = acc.names ++ l₁.map (fun f => f.name)
    ∧ (runLoop env (l₁ ++ k :: l₂) acc).1.attempted
        = acc.attempted ++ l₁.map (fun f => f.name) ++ [k.name] := by
  intro l₁
  induction l₁ with
  | nil =>
    intro acc _ _ _
    simp [runLoop, hk]
  | cons f fs ih =>
    intro acc hok hfresh hnodup
    simp only [List.map_cons, List.nodup_cons, List.mem_map, not_exists, not_and] at hnodup
    have hf : exceptOk (env f.name) = true := hok f (by simp)
    obtain ⟨d, hd⟩ : ∃ d, env f.name = .ok d := by
      cases henv : env f.name with
      | ok d => exact ⟨d, rfl⟩
      | error e' => rw [henv] at hf; simp [exceptOk] at hf
    have hcontains : acc.names.contains f.name = false := hfresh f (by simp)
    have hadd : addName acc.names f.name = acc.names ++ [f.name] := by
      simp only [addName, hcontains, Bool.false_eq_true, if_false]
    have hok' : ∀ f' ∈ fs, exceptOk (env f'.name) = true :=
      fun f' hf' => hok f' (List.mem_cons_of_mem _ hf')
    have hfresh' : ∀ f' ∈ fs,
        (loopStepOk f d { acc with progress := setProgress acc.progress f.name 0
                                   attempted := acc.attempted ++ [f.name] }).names.contains f'.name
          = false := by
      intro f' hf'
      have h1 : acc.names.contains f'.name = false := hfresh f' (List.mem_cons_of_mem _ hf')
      have h2 : ¬ f'.name = f.name := fun hEq => hnodup.1 f' hf' hEq
      rw [loopStepOk_names]
      show (addName acc.names f.name).contains f'.name = false
      rw [hadd]
      simp at h1 ⊢
      exact ⟨h1, h2⟩
    obtain ⟨g1, g2, g3⟩ := ih
      (loopStepOk f d { acc with progress := setProgress acc.progress f.name 0
                                 attempted := acc.attempted ++ [f.name] })
      hok' hfresh' hnodup.2
    simp only [List.cons_append, List.append_eq, runLoop, hd]
    refine ⟨g1, ?_, ?_⟩
    · rw [g2, loopStepOk_names]
      show addName acc.names f.name ++ _ = _
      rw [hadd]
      simp
    · rw [g3, loopStepOk_attempted]
      simp

/-- Helper for C5: when every file succeeds the loop attempts all of them
in order. -/
theorem runLoop_all_ok (env : String → Except UploadErr UploadResponse) :
    ∀ (l : List UploadFile) (acc : LoopAcc),
    (∀ f ∈ l, exceptOk (env f.name) = true) →
    (runLoop env l acc).2 = none
    ∧ (runLoop env l acc).1.attempted = acc.attempted ++ l.map (fun f => f.name) := by
  intro l
  induction l with
  | nil => intro acc _; simp [runLoop]
  | cons f fs ih =>
    intro acc hok
    have hf := hok f (by simp)
    obtain ⟨d, hd⟩ : ∃ d, env f.name = .ok d := by
      cases henv : env f.name with
      | ok d => exact ⟨d, rfl⟩
      | error e' => rw [henv] at hf; simp [exceptOk] at hf
    simp only [runLoop, hd]
    obtain ⟨g1, g2⟩ := ih
      (loopStepOk f d { acc with progress := setProgress acc.progress f.name 0
                                 attempted := acc.attempted ++ [f.name] })
      (fun f' h => hok f' (List.mem_cons_of_mem _ h))
    refine ⟨g1, ?_⟩
    rw [g2, loopStepOk_attempted]
    simp

/-- Helper for C5: whatever the outcomes, the loop attempts an initial
segment of its input list, in order. -/
theorem runLoop_attempted_extends (env : String → Except UploadErr UploadResponse) :
    ∀ (l : List UploadFile) (acc : LoopAcc),
    ∃ l₁ l₂, l = l₁ ++ l₂
      ∧ (runLoop env l acc).1.attempted = acc.attempted ++ l₁.map (fun f => f.name) := by
  intro l
  induction l with
  | nil => intro acc; exact ⟨[], [], rfl, by simp [runLoop]⟩
  | cons f fs ih =>
    intro acc
    cases hd : env f.name with
    | error e =>
      refine ⟨[f], fs, rfl, ?_⟩
      simp [runLoop, hd]
    | ok d =>
      obtain ⟨l₁, l₂, hsp, hat⟩ := ih
        (loopStepOk f d { acc with progress := setProgress acc.progress f.name 0
                                   attempted := acc.attempted ++ [f.name] })
      refine ⟨f :: l₁, l₂, by simp [hsp], ?_⟩
      simp only [runLoop, hd]
      rw [hat, loopStepOk_attempted]
      simp

/-- Helper: on a non-empty pending set, the attempted trace and the
uploaded-names set of `handleUpload` are those of the loop, in every
outcome branch (success, classified failure, escaped failure). -/
theorem handleUpload_eq_loop (env : String → Except UploadErr UploadResponse)
    (isZh : Bool) (s : UpState) (h : (pendingFiles s).isEmpty = false) :
    (handleUpload env isZh s).attempted
        = (runLoop env (pendingFiles s) (initAccOf s)).1.attempted
    ∧ (handleUpload env isZh s).state.uploadedFileNames
        = (runLoop env (pendingFiles s) (initAccOf s)).1.names := by
  unfold handleUpload
  simp only [h, Bool.false_eq_true, if_false]
  cases hrl : runLoop env (pendingFiles s) (initAccOf s) with
  | mk acc err =>
    cases err with
    | none => simp
    | some e =>
      cases hc : classifyUploadError isZh e with
      | ok m => simp [hc]
      | error u => simp [hc]

/-- C4: if the pending files split as `l₁ ++ k :: l₂`, every file of `l₁`
succeeds and `k` fails, then the invocation attempts exactly `l₁` then
`k` (nothing after `k`), marks exactly the files of `l₁` as uploaded in
addition to the previously marked ones, does not mark `k`, and keeps
every previously marked file marked (no rollback). -/
theorem c4_failure_stops_batch (env : String → Except UploadErr UploadResponse)
    (isZh : Bool) (s : UpState)
    (l₁ : List UploadFile) (k : UploadFile) (l₂ : List UploadFile) (e : UploadErr)
    (hsplit : pendingFiles s = l₁ ++ k :: l₂)
    (hok : ∀ f ∈ l₁, exceptOk (env f.name) = true)
    (hfail : env k.name = .error e)
    (hnodup : ((pendingFiles s).map (fun f => f.name)).Nodup) :
    (handleUpload env isZh s).attempted = l₁.map (fun f => f.name) ++ [k.name]
    ∧ (handleUpload env isZh s).state.uploadedFileNames
        = s.uploadedFileNames ++ l₁.map (fun f => f.name)
    ∧ (handleUpload env isZh s).state.uploadedFileNames.contains k.name = false
    ∧ (∀ n, s.uploadedFileNames.contains n = true →
        (handleUpload env isZh s).state.uploadedFileNames.contains n = true) := by
  have hne : (pendingFiles s).isEmpty = false := by
    rw [hsplit]; cases l₁ <;> simp
  obtain ⟨hatt, hnames⟩ := handleUpload_eq_loop env isZh s hne
  rw [hsplit] at hnodup
  simp only [List.map_append, List.map_cons] at hnodup
  have hnd1 : (l₁.map (fun f => f.name)).Nodup := hnodup.of_append_left
  have hdisj := List.disjoint_of_nodup_append hnodup
  have hkl : k.name ∉ l₁.map (fun f => f.name) := by
    intro hmem
    exact hdisj hmem (by simp)
  have hfresh : ∀ f ∈ pendingFiles s, s.uploadedFileNames.contains f.name = false := by
    intro f hf
    have hmf := List.of_mem_filter hf
    simpa using hmf
  obtain ⟨g1, g2, g3⟩ := runLoop_ok_then_fail env k e l₂ hfail l₁ (initAccOf s)
    hok (fun f hf => hfresh f (by rw [hsplit]; exact List.mem_append_left _ hf)) hnd1
  rw [hsplit] at hatt hnames
  have hk1 : s.uploadedFileNames.contains k.name = false :=
    hfresh k (by rw [hsplit]; simp)
  refine ⟨?_, ?_, ?_, ?_⟩
  · rw [hatt, g3]; simp [initAccOf]
  · rw [hnames, g2]; simp [initAccOf]
  · rw [hnames, g2]
    simp only [initAccOf]
    simp at hk1 ⊢
    exact ⟨hk1, fun f hf hEq => hkl (by exact List.mem_map.2 ⟨f, hf, hEq⟩)⟩
  · intro n hn
    rw [hnames, g2]
    simp only [initAccOf]
    simp at hn ⊢
    exact Or.inl hn

/-- C4 witness: three fresh files `a`, `b`, `c` where `b` fails with HTTP
500: only `a` and `b` are attempted, only `a` is marked uploaded. -/
theorem c4_failure_stops_batch_w :
    (pendingFiles sampleBatch = [⟨"a", 1⟩] ++ ⟨"b", 2⟩ :: [⟨"c", 3⟩])
    ∧ (∀ f ∈ [(⟨"a", 1⟩ : UploadFile)], exceptOk (sampleEnv f.name) = true)
    ∧ sampleEnv "b" = .error (.httpResponse 500 "boom")
    ∧ ((pendingFiles sampleBatch).map (fun f => f.name)).Nodup
    ∧ ((handleUpload sampleEnv false sampleBatch).attempted
          = [(⟨"a", 1⟩ : UploadFile)].map (fun f => f.name) ++ ["b"]
      ∧ (handleUpload sampleEnv false sampleBatch).state.uploadedFileNames
          = sampleBatch.uploadedFileNames ++ [(⟨"a", 1⟩ : UploadFile)].map (fun f => f.name)
      ∧ (handleUpload sampleEnv false sampleBatch).state.uploadedFileNames.contains "b" = false
      ∧ (∀ n, sampleBatch.uploadedFileNames.contains n = true →
          (handleUpload sampleEnv false sampleBatch).state.uploadedFileNames.contains n
            = true)) :=
  ⟨by decide, by decide, by rfl, by decide,
    c4_failure_stops_batch sampleEnv false sampleBatch [⟨"a", 1⟩] ⟨"b", 2⟩ [⟨"c", 3⟩]
      (.httpResponse 500 "boom") (by decide) (by decide) (by rfl) (by decide)⟩

/-- C5: every file name POSTed by an invocation of `handleUpload` comes
from the pending list (an initial segment of the selected files not yet
marked uploaded, in order); when every pending file succeeds, exactly the
pending files are submitted; and no submitted file was already marked
uploaded (idempotent resume) — each submitted name belongs to a selected
file that was not in the uploaded set. -/
theorem c5_idempotent_resume (env : String → Except UploadErr UploadResponse)
    (isZh : Bool) (s : UpState) :
    (∃ suffix, (pendingFiles s).map (fun f => f.name)
        = (handleUpload env isZh s).attempted ++ suffix)
    ∧ ((∀ f ∈ pendingFiles s, exceptOk (env f.name) = true) →
        (handleUpload env isZh s).attempted = (pendingFiles s).map (fun f => f.name))
    ∧ (∀ n ∈ (handleUpload env isZh s).attempted,
        s.uploadedFileNames.contains n = false ∧ ∃ f ∈ s.uploadedFiles, f.name = n) := by
  by_cases hne : (pendingFiles s).isEmpty = true
  · have hp : pendingFiles s = [] := by simpa [List.isEmpty_iff] using hne
    have hatt : (handleUpload env isZh s).attempted = [] := by
      unfold handleUpload
      simp [hne]
    refine ⟨⟨[], by rw [hatt]; simp [hp]⟩, fun _ => by rw [hatt, hp]; simp,
      fun n hn => absurd hn (by rw [hatt]; simp)⟩
  · have hne' : (pendingFiles s).isEmpty = false := by
      simpa using hne
    obtain ⟨hatt, hnames⟩ := handleUpload_eq_loop env isZh s hne'
    obtain ⟨l₁, l₂, hsp, hat⟩ := runLoop_attempted_extends env (pendingFiles s) (initAccOf s)
    refine ⟨?_, ?_, ?_⟩
    · refine ⟨l₂.map (fun f => f.name), ?_⟩
      rw [hatt, hat]
      conv_lhs => rw [hsp]
      simp [initAccOf]
    · intro hall
      obtain ⟨_, g2⟩ := runLoop_all_ok env (pendingFiles s) (initAccOf s) hall
      rw [hatt, g2]
      simp [initAccOf]
    · intro n hn
      rw [hatt, hat] at hn
      simp only [initAccOf, List.nil_append] at hn
      obtain ⟨f, hfmem, rfl⟩ := List.mem_map.1 hn
      have hfp : f ∈ pendingFiles s := by
        rw [hsp]; exact List.mem_append_left _ hfmem
      have h1 := List.of_mem_filter hfp
      have h2 := List.mem_of_mem_filter hfp
      refine ⟨by simpa using h1, ⟨f, h2, rfl⟩⟩

/-- C5 witness: with every upload succeeding, the attempted names are
exactly the pending file names. -/
theorem c5_idempotent_resume_w :
    (∀ f ∈ pendingFiles sampleBatch, exceptOk (sampleEnvOk f.name) = true)
    ∧ (handleUpload sampleEnvOk false sampleBatch).attempted
        = (pendingFiles sampleBatch).map (fun f => f.name) :=
  ⟨by decide, (c5_idempotent_resume sampleEnvOk false sampleBatch).2.1 (by decide)⟩

/-- C9: `handleStepChange` with target step 1 clears the job id from
component state and from persistent storage and resets the high-water
mark to 1; for any target, the current step becomes the target exactly
when the target is at most the (pre-update) high-water mark, and is
unchanged otherwise. -/
theorem c9_step_change_resets_job (step : Nat) (s : WizardState) :
    (step = 1 → (handleStepChange step s).currentJobId = none
      ∧ (handleStepChange step s).localJobId = none
      ∧ (handleStepChange step s).maxReachedStep = 1)
    ∧ (step ≤ s.maxReachedStep → (handleStepChange step s).currentStep = step)
    ∧ (¬ step ≤ s.maxReachedStep → (handleStepChange step s).currentStep = s.currentStep) := by
  unfold handleStepChange
  by_cases h1 : step = 1
  · subst h1
    by_cases h2 : 1 ≤ s.maxReachedStep <;> simp [h2]
  · by_cases h2 : step ≤ s.maxReachedStep <;> simp [h1, h2]

/-- C9 witness: navigating to step 1 from `sampleWizard` (step 2,
high-water mark 3, live job) clears both job id copies, resets the mark
and lands on step 1. -/
theorem c9_step_change_resets_job_w :
    (handleStepChange 1 sampleWizard).currentJobId = none
    ∧ (handleStepChange 1 sampleWizard).localJobId = none
    ∧ (handleStepChange 1 sampleWizard).maxReachedStep = 1
    ∧ (handleStepChange 1 sampleWizard).currentStep = 1 :=
  ⟨((c9_step_change_resets_job 1 sampleWizard).1 rfl).1,
   ((c9_step_change_resets_job 1 sampleWizard).1 rfl).2.1,
   ((c9_step_change_resets_job 1 sampleWizard).1 rfl).2.2,
   (c9_step_change_resets_job 1 sampleWizard).2.1 (by decide)⟩

end I2pptt
